import Mathlib

/-
  Verification of the medusa fuzzing engine (coverage tracer, call sequence
  generator, fuzzer worker, shrinker) against its specification.

  The definitions below are shallow embeddings of the Go source:
  - the coverage tracer and edge markers (coverage tracer file, CaptureState,
    GetCoverageTracerResults, CaptureTxEndSetAdditionalResults),
  - the marker decoding of fuzzing/coverage/source_analysis.go
    (getExecFlagsMapping),
  - the call sequence generator (call sequence generator file:
    generateNewElement, callSeqGenFuncExpansion,
    callSeqGenFuncInterleaveAtRandom, PopSequenceElement),
  - the fuzzer worker (worker file: testNextCallSequence,
    testShrunkenCallSequence, shrinkCallSequence, run).

  Machine integers are modelled as Nat with explicit reductions modulo
  2 ^ 64 (uint64) and 2 ^ 256 (uint256) where overflow can matter.
  External collaborators (the test chain, the abi value generator and
  mutator, property test functions) are modelled as oracle parameters,
  following section 6 of the spec.
-/

/-! ## Bit level edge markers (coverage tracer and source analysis) -/

/-- Embedding of Go bits.RotateLeft64 for a uint64 value x (x < 2 ^ 64):
the result is the 64 bit rotation of x left by k bits. -/
def rotateLeft64 (x k : Nat) : Nat :=
  ((x <<< k) ||| (x >>> (64 - k))) % 2 ^ 64

/-- Edge marker construction from CaptureState (coverage tracer):
marker := bits.RotateLeft64(pc, 32) ^ pos.Uint64(). The second argument is
the destination already reduced to uint64 by pos.Uint64(). -/
def edgeMarker (pc posU64 : Nat) : Nat :=
  rotateLeft64 pc 32 ^^^ posU64

/-- The opcodes distinguished by CaptureState; every other opcode is
represented by otherOp and produces no marker. -/
inductive OpCode where
  | jump
  | jumpi
  | otherOp
deriving DecidableEq

/-- Destination (the pos variable of CaptureState) chosen by the tracer for
one traced step, before the uint64 truncation applied by pos.Uint64().
From the coverage tracer source: for JUMPI, pos is first set to the top
stack item, and, when the condition (second stack item) is not zero, it is
overwritten with pc + 1 computed in uint256; for JUMP, pos is the top stack
item; all other opcodes return without emitting a marker. -/
def captureStateMarkerDest (op : OpCode) (pc stackTop cond : Nat) : Option Nat :=
  match op with
  | .jumpi => if cond ≠ 0 then some ((pc + 1) % 2 ^ 256) else some stackTop
  | .jump => some stackTop
  | .otherOp => none

/-- The marker emitted by CaptureState for one traced step, when the opcode
produces one: the edge marker built from pc and the chosen destination
truncated to uint64. -/
def captureStateMarker (op : OpCode) (pc stackTop cond : Nat) : Option Nat :=
  (captureStateMarkerDest op pc stackTop cond).map fun pos => edgeMarker pc (pos % 2 ^ 64)

/-- Decoding of a marker into its destination program counter, from
getExecFlagsMapping in source_analysis.go: dst := marker & 0xFFFFFFFF. -/
def execFlagDst (marker : Nat) : Nat :=
  marker &&& 0xFFFFFFFF

/-- Decoding of a marker into its source program counter, from
getExecFlagsMapping in source_analysis.go: src := marker >> 32. -/
def execFlagSrc (marker : Nat) : Nat :=
  marker >>> 32

/-! ## Delay generation (generateNewElement) -/

/-- The uint64 modulus. -/
def U64 : Nat := 2 ^ 64

/-- Raw delay sampling of generateNewElement: when the configured maximum is
positive, the raw sampled uint64 is reduced modulo maxDelay + 1, otherwise
the delay stays zero. Arithmetic is uint64: maxDelay + 1 wraps modulo
2 ^ 64, and a wrapped modulus of zero is a Go division by zero panic,
modelled as none. -/
def sampleDelay (raw maxDelay : Nat) : Option Nat :=
  if 0 < maxDelay then
    if (maxDelay + 1) % U64 = 0 then none else some (raw % U64 % ((maxDelay + 1) % U64))
  else some 0

/-- Delay pair computation of generateNewElement (call sequence generator
source): each raw sampled uint64 is reduced into its configured range, and
then, when the block number delay exceeds the block timestamp delay, the
number delay is reduced modulo the timestamp delay (or set to zero when the
timestamp delay is zero). -/
def generateDelays (rawNumber rawTimestamp maxBlockNumberDelay maxBlockTimestampDelay : Nat) :
    Option (Nat × Nat) :=
  match sampleDelay rawNumber maxBlockNumberDelay, sampleDelay rawTimestamp maxBlockTimestampDelay with
  | some blockNumberDelay, some blockTimestampDelay =>
    if blockNumberDelay > blockTimestampDelay then
      if blockTimestampDelay = 0 then some (0, blockTimestampDelay)
      else some (blockNumberDelay % blockTimestampDelay, blockTimestampDelay)
    else some (blockNumberDelay, blockTimestampDelay)
  | _, _ => none

/-! ## Coverage tracer results in the additional results bag -/

/-- Modelled from the spec: a Coverage Maps value is a mapping from
(code hash, is init) to a contract coverage map from edge marker to hit
count (the coverage maps source file is not part of the analysed sources;
section 3 of the spec describes the shape). Only its identity matters for
the round trip through the additional results bag. -/
structure CoverageMaps where
  maps : List ((Nat × Bool) × List (Nat × Nat))
deriving DecidableEq

/-- A value stored in the string keyed additional results bag of a message
result. Go stores values of type any; the coverage tracer stores a
CoverageMaps pointer, and other tracers may store values of other types,
represented here by otherValue. -/
inductive AdditionalResult where
  | coverageMaps (cm : CoverageMaps)
  | otherValue (tag : Nat)
deriving DecidableEq

/-- Lookup in the additional results bag (Go map indexing with the comma ok
idiom). -/
def lookupResult (key : String) : List (String × AdditionalResult) → Option AdditionalResult
  | [] => none
  | (k, v) :: rest => if k = key then some v else lookupResult key rest

/-- Deletion from the additional results bag (Go delete builtin). -/
def deleteResult (key : String) : List (String × AdditionalResult) → List (String × AdditionalResult)
  | [] => []
  | (k, v) :: rest => if k = key then deleteResult key rest else (k, v) :: deleteResult key rest

/-- Update of the additional results bag (Go map assignment): the key is
bound to the new value and any previous binding is dropped. -/
def setResult (key : String) (v : AdditionalResult) (m : List (String × AdditionalResult)) :
    List (String × AdditionalResult) :=
  (key, v) :: deleteResult key m

/-- Per message results record: the receipt is irrelevant here, only the
additional results bag is modelled. -/
structure MessageResults where
  additionalResults : List (String × AdditionalResult)
deriving DecidableEq

/-- The well known key under which the tracer stores its results
(constant coverageTracerResultsKey of the coverage tracer source). -/
def coverageTracerResultsKey : String := "CoverageTracerResults"

/-- CaptureTxEndSetAdditionalResults: stores the tracer coverage maps in the
message results under the well known key. -/
def captureTxEndSetAdditionalResults (tracerCoverageMaps : CoverageMaps)
    (results : MessageResults) : MessageResults :=
  { additionalResults :=
      setResult coverageTracerResultsKey (.coverageMaps tracerCoverageMaps) results.additionalResults }

/-- GetCoverageTracerResults: looks up the well known key and type asserts
the stored value to CoverageMaps; a missing key or a value of a different
type yields nil, modelled as none. -/
def getCoverageTracerResults (results : MessageResults) : Option CoverageMaps :=
  match lookupResult coverageTracerResultsKey results.additionalResults with
  | some (.coverageMaps cm) => some cm
  | some _ => none
  | none => none

/-- RemoveCoverageTracerResults: deletes the well known key from the message
results. -/
def removeCoverageTracerResults (results : MessageResults) : MessageResults :=
  { additionalResults := deleteResult coverageTracerResultsKey results.additionalResults }

/-! ## Call sequence elements and the shrinker -/

/-- A call sequence element as the shrinker observes it: the abi input
values of its call (abstracted to natural numbers) and whether its receipt
status is failed (types.ReceiptStatusFailed). The remaining fields of the
Go struct (sender, target, gas, delays, chain reference) do not influence
the control flow of the shrinker. -/
structure CallSequenceElement where
  inputValues : List Nat
  statusFailed : Bool
deriving DecidableEq, Inhabited

/-- Oracles standing for the external collaborators of the shrinker: the
verifier closure of the shrink request (a pure predicate on candidate
sequences), the random coin tosses and random index draws of the worker
random provider (indexed by phase two round), and the shrinking value
mutator (MutateAbiValue with the shrinking value mutator; its error is
discarded by the source). -/
structure ShrinkOracles where
  verifier : List CallSequenceElement → Bool
  coin : Nat → Nat
  pickIdx : Nat → Nat
  mutate : Nat → Nat

/-- One iteration chunk of the remove reverting transactions loop of
shrinkCallSequence (worker source). Each iteration clones the unmodified
optimizedSequence into withoutReverts, deletes the element at the current
index from that fresh clone when its receipt status is failed, and
decrements the shrink budget; the loop guard is
i < len(optimizedSequence) && !shrinkingEnded(), where shrinkingEnded is
shrinkIteration >= shrinkLimit with shrinkIteration still zero (the context
is modelled as never cancelled). The fuel argument only bounds recursion
and is chosen at the call site so that it never cuts the loop short. -/
def removeRevertsLoop (seq : List CallSequenceElement) :
    Nat → Nat → Nat → List CallSequenceElement → List CallSequenceElement × Nat
  | 0, _, shrinkLimit, withoutReverts => (withoutReverts, shrinkLimit)
  | fuel + 1, i, shrinkLimit, withoutReverts =>
    if i < seq.length ∧ 0 < shrinkLimit then
      removeRevertsLoop seq fuel (i + 1) (shrinkLimit - 1)
        (if (seq.getD i default).statusFailed then seq.eraseIdx i else seq)
    else (withoutReverts, shrinkLimit)

/-- The remove reverting transactions phase of shrinkCallSequence: the loop
above started at index zero with the zero value nil for withoutReverts,
returning the final withoutReverts candidate and the remaining shrink
budget. -/
def removeRevertsPhase (seq : List CallSequenceElement) (shrinkLimit : Nat) :
    List CallSequenceElement × Nat :=
  removeRevertsLoop seq seq.length 0 shrinkLimit []

/-- testShrunkenCallSequence (worker source), as the shrinker observes it:
the candidate is executed (execution state is reverted before returning and
does not influence the result here), and the verifier is consulted only
when the candidate is non empty; an empty candidate is reported invalid. -/
def testShrunkenCallSequence (verifier : List CallSequenceElement → Bool)
    (possibleShrunkSequence : List CallSequenceElement) : Bool :=
  if 0 < possibleShrunkSequence.length then verifier possibleShrunkSequence else false

/-- shrinkParam (worker source): pick a random element index
(randomProvider.Intn of the length, modelled as the oracle draw reduced
modulo the length; the source requires a non empty sequence) and mutate
every abi input value of that element with the shrinking value mutator. -/
def shrinkParam (mutate : Nat → Nat) (draw : Nat) (seq : List CallSequenceElement) :
    List CallSequenceElement :=
  let i := draw % seq.length
  let e := seq.getD i default
  seq.set i { e with inputValues := e.inputValues.map mutate }

/-- shorten (worker source): delete the element at a random index. -/
def shorten (draw : Nat) (seq : List CallSequenceElement) : List CallSequenceElement :=
  seq.eraseIdx (draw % seq.length)

/-- One candidate of the alternating mutation loop of shrinkCallSequence:
the cloned optimized sequence with shrinkParam applied when the coin toss
is even or the length is one, and shorten applied otherwise. -/
def shrinkCandidate (o : ShrinkOracles) (round : Nat)
    (optimizedSequence : List CallSequenceElement) : List CallSequenceElement :=
  if o.coin round % 2 = 0 ∨ optimizedSequence.length = 1 then
    shrinkParam o.mutate (o.pickIdx round) optimizedSequence
  else
    shorten (o.pickIdx round) optimizedSequence

/-- The alternating mutation loop of shrinkCallSequence: while
shrinkIteration < shrinkLimit, build the candidate, test it, increment
shrinkIteration, promote the candidate when valid, and decrement
shrinkLimit. Recursion is structural on the decreasing shrinkLimit. -/
def shrinkLoop (o : ShrinkOracles) :
    Nat → Nat → Nat → List CallSequenceElement → List CallSequenceElement
  | 0, _, _, optimizedSequence => optimizedSequence
  | shrinkLimit + 1, shrinkIteration, round, optimizedSequence =>
    if shrinkLimit + 1 ≤ shrinkIteration then optimizedSequence
    else
      shrinkLoop o shrinkLimit (shrinkIteration + 1) (round + 1)
        (if testShrunkenCallSequence o.verifier (shrinkCandidate o round optimizedSequence) then
          shrinkCandidate o round optimizedSequence
        else optimizedSequence)

/-- shrinkCallSequence (worker source): when the shrink limit is positive,
run the remove reverting transactions phase, test its candidate once and
promote it when valid, then run the alternating mutation loop with the
remaining budget. Recording the result in the corpus, the chain reverts and
the finished callback (later lines of the function) do not alter the
returned optimized sequence. -/
def shrinkCallSequence (o : ShrinkOracles) (callSequence : List CallSequenceElement)
    (shrinkLimit : Nat) : List CallSequenceElement :=
  if 0 < shrinkLimit then
    shrinkLoop o (removeRevertsPhase callSequence shrinkLimit).2 0 0
      (if testShrunkenCallSequence o.verifier (removeRevertsPhase callSequence shrinkLimit).1 then
        (removeRevertsPhase callSequence shrinkLimit).1
      else callSequence)
  else callSequence

/-! ## Worker chain state (testNextCallSequence and run) -/

/-- The worker test chain, reduced to the only observable the claims need:
its head block number. -/
structure TestChain where
  headBlockNumber : Nat
deriving DecidableEq

/-- Modelled from the spec: revert_to_block_number(n) of the external test
chain interface (section 6) rewinds the chain so that the head block number
is n. The chain implementation is not part of the analysed sources. -/
def revertToBlockNumber (_c : TestChain) (n : Nat) : TestChain :=
  { headBlockNumber := n }

/-- Outcome of ExecuteCallSequenceIteratively inside testNextCallSequence,
as an oracle: how many blocks the executed prefix mined on the chain, and
whether it returned an error or was cut short by context cancellation
(which is not an error). -/
inductive ExecIterOutcome where
  | success (blocksMined : Nat)
  | ctxCancelled (blocksMined : Nat)
  | execError (blocksMined : Nat)
deriving DecidableEq

/-- testNextCallSequence (worker source), projected onto chain state: the
body may fail in InitializeNextSequence (initErr, before any block is
mined) or behave per the execution outcome; the deferred function runs on
every return path but calls RevertToBlockNumber only when err == nil.
Returns the chain as left behind together with whether an error was
returned. -/
def testNextCallSequence (c : TestChain) (testingBaseBlockNumber : Nat)
    (initErr : Bool) (exec : ExecIterOutcome) : TestChain × Bool :=
  if initErr then (c, true)
  else
    match exec with
    | .execError k => ({ headBlockNumber := c.headBlockNumber + k }, true)
    | .success k =>
        (revertToBlockNumber { headBlockNumber := c.headBlockNumber + k } testingBaseBlockNumber,
         false)
    | .ctxCancelled k =>
        (revertToBlockNumber { headBlockNumber := c.headBlockNumber + k } testingBaseBlockNumber,
         false)

/-- Outcome of one iteration of the worker main loop, as an oracle indexed
by the current value of sequencesTested: the context was found done at the
loop head, some step of the iteration returned an error, or the iteration
completed and sequencesTested was incremented. -/
inductive WorkerIterOutcome where
  | ctxDone
  | iterError
  | tested
deriving DecidableEq

/-- How the worker run method returned. -/
inductive RunExit where
  | cancelled
  | erred
  | finishedNormally
deriving DecidableEq

/-- The main fuzzing loop of run (worker source):
for sequencesTested <= WorkerResetLimit. The fuel argument encodes the
loop condition: it starts at WorkerResetLimit + 1 and reaching zero is
exactly sequencesTested > WorkerResetLimit, upon which run returns
(false, nil), i.e. a normal finish. Returns the exit kind and the number of
completed sequences. -/
def runLoop (outcomes : Nat → WorkerIterOutcome) : Nat → Nat → RunExit × Nat
  | 0, sequencesTested => (.finishedNormally, sequencesTested)
  | fuel + 1, sequencesTested =>
    match outcomes sequencesTested with
    | .ctxDone => (.cancelled, sequencesTested)
    | .iterError => (.erred, sequencesTested)
    | .tested => runLoop outcomes fuel (sequencesTested + 1)

/-- The run fuzzing loop entered with sequencesTested = 0. -/
def runFuzzingLoop (workerResetLimit : Nat) (outcomes : Nat → WorkerIterOutcome) :
    RunExit × Nat :=
  runLoop outcomes (workerResetLimit + 1) 0

/-! ## Interleave at random strategy -/

/-- The interleaving loop of callSeqGenFuncInterleaveAtRandom: for each
i below the largest prefix length, copy element i of the first prefix and
then element i of the second prefix into consecutive destination slots.
The fuel argument is the loop bound largestSequenceSize. -/
def interleaveGo (firstSeq secondSeq : List CallSequenceElement) :
    Nat → Nat → Nat → List (Option CallSequenceElement) → List (Option CallSequenceElement)
  | 0, _, _, dest => dest
  | fuel + 1, i, destIndex, dest =>
    let step1 : List (Option CallSequenceElement) × Nat :=
      match firstSeq[i]? with
      | some a => (dest.set destIndex (some a), destIndex + 1)
      | none => (dest, destIndex)
    let step2 : List (Option CallSequenceElement) × Nat :=
      match secondSeq[i]? with
      | some b => (step1.1.set step1.2 (some b), step1.2 + 1)
      | none => step1
    interleaveGo firstSeq secondSeq fuel (i + 1) step2.2 step2.1

/-- callSeqGenFuncInterleaveAtRandom (call sequence generator source):
draw two corpus sequences, slice a random length prefix of each (the first
of length Intn(min(destLen, len(first))) + 1, the second of length
Intn(min(destLen - firstLen, len(second)) + 1)), then interleave them into
the destination, which starts as all nil slots (holes to be filled fresh by
PopSequenceElement). The random draws r1 and r2 are modelled as oracle
values reduced to the Intn ranges; Go would panic when the first Intn bound
is zero (empty destination or empty corpus sequence). -/
def callSeqGenFuncInterleaveAtRandom (destLen : Nat)
    (firstSequence secondSequence : List CallSequenceElement) (r1 r2 : Nat) :
    List (Option CallSequenceElement) :=
  let maxLength1 := min destLen firstSequence.length
  let firstSequenceLength := r1 % maxLength1 + 1
  let firstSeq := firstSequence.take firstSequenceLength
  let maxLength2 := min (destLen - firstSequenceLength) secondSequence.length
  let secondSequenceLength := r2 % (maxLength2 + 1)
  let secondSeq := secondSequence.take secondSequenceLength
  let largestSequenceSize := max firstSequenceLength secondSequenceLength
  interleaveGo firstSeq secondSeq largestSequenceSize 0 0 (List.replicate destLen none)

/-! ## Expansion strategy and Go slice aliasing -/

/-- State of the expansion strategy with respect to Go slice semantics.
The strategy receives a copy of the slice header of the generator base
sequence; appends that fit in capacity write through to the shared backing
array, while appends that exceed capacity allocate a fresh array and detach
the local slice from the caller. origBacking is the contents of the caller
backing array (what the generator base sequence still sees), view is the
local slice contents, cap its capacity (the local slice always starts at
offset zero of its backing array, as every reslice in the strategy is a
prefix), and aliased records whether the local slice still shares the
caller backing array. -/
structure GoSliceState (α : Type) where
  origBacking : List α
  view : List α
  cap : Nat
  aliased : Bool
deriving DecidableEq

/-- Go append semantics for the expansion strategy: newView is the value of
the appended slice. When it fits in capacity the backing array is written
in place (visible to the caller when still aliased); otherwise a fresh
array is allocated with a grown capacity and the local slice detaches. The
exact growth policy of the Go runtime is approximated by doubling; the
theorems below do not depend on it, because detachment happens at the first
append (the base sequence is created with length equal to capacity). -/
def goAppendSlice {α : Type} (s : GoSliceState α) (newView : List α) : GoSliceState α :=
  if newView.length ≤ s.cap then
    { origBacking :=
        if s.aliased then newView ++ s.origBacking.drop newView.length else s.origBacking
      view := newView
      cap := s.cap
      aliased := s.aliased }
  else
    { origBacking := s.origBacking
      view := newView
      cap := max (2 * s.cap) newView.length
      aliased := false }

/-- The expansion rounds of callSeqGenFuncExpansion: in each round the
running randIndex is advanced by the loop counter, and the duplicated
element is inserted at randIndex when it is in range (append of the prefix
with the element consed onto the suffix) or appended at the end otherwise.
The fuel argument is the number of remaining rounds. -/
def callSeqGenFuncExpansionLoop {α : Type} (duplicatedElement : α) :
    Nat → Nat → Nat → GoSliceState α → GoSliceState α
  | 0, _, _, s => s
  | remaining + 1, i, randIndex, s =>
    callSeqGenFuncExpansionLoop duplicatedElement remaining (i + 1) (randIndex + i)
      (goAppendSlice s
        (if randIndex + i < s.view.length then
          s.view.take (randIndex + i) ++ duplicatedElement :: s.view.drop (randIndex + i)
        else
          s.view ++ [duplicatedElement]))

/-- callSeqGenFuncExpansion (call sequence generator source): rounds is
Intn(31), the start index Intn(len(sequence)) (Go panics on an empty
sequence), the duplicated element is read at that index, and the rounds are
run on the slice header copy of the base sequence, whose backing array has
capacity equal to its length (it was created by make with that length).
The element type is Option CallSequenceElement because the base sequence is
a slice of pointers whose nil entries are holes. -/
def callSeqGenFuncExpansion (sequence : List (Option CallSequenceElement)) (rr r : Nat) :
    GoSliceState (Option CallSequenceElement) :=
  callSeqGenFuncExpansionLoop (sequence.getD (r % sequence.length) none) (rr % 31) 0
    (r % sequence.length)
    { origBacking := sequence, view := sequence, cap := sequence.length, aliased := true }

/-- The generator state PopSequenceElement operates on: the base sequence
(slice of nullable elements) and the fetch cursor. -/
structure CallSequenceGenerator where
  baseSequence : List (Option CallSequenceElement)
  fetchIndex : Nat
deriving DecidableEq

/-- PopSequenceElement (call sequence generator source): when the fetch
cursor is past the base sequence the method returns nil; otherwise the slot
is read, a nil slot is synthesized fresh (generateNewElement, an oracle
here), a filled slot is passed through the prefetch modify hook when one is
installed, the element is stamped from live chain state
(FillFromTestChainProperties, an oracle), written back into the base
sequence, and the cursor advances. -/
def popSequenceElement (fresh : CallSequenceElement)
    (prefetchModifyCallFunc : Option (CallSequenceElement → CallSequenceElement))
    (fillFromTestChainProperties : CallSequenceElement → CallSequenceElement)
    (g : CallSequenceGenerator) : Option CallSequenceElement × CallSequenceGenerator :=
  if g.baseSequence.length ≤ g.fetchIndex then (none, g)
  else
    let slot := g.baseSequence.getD g.fetchIndex none
    let element :=
      match slot with
      | none => fresh
      | some e =>
        match prefetchModifyCallFunc with
        | some f => f e
        | none => e
    let element := fillFromTestChainProperties element
    (some element,
     { baseSequence := g.baseSequence.set g.fetchIndex (some element),
       fetchIndex := g.fetchIndex + 1 })

/-! ## Helper lemmas -/

/-- For a source program counter below 2 ^ 32, the 32 bit rotation used by
the tracer is a plain shift into the high half. -/
theorem rotateLeft64_32_eq_shiftLeft {pc : Nat} (h : pc < 2 ^ 32) :
    rotateLeft64 pc 32 = pc <<< 32 := by
  unfold rotateLeft64
  have h1 : pc >>> (64 - 32) = 0 := by
    rw [Nat.shiftRight_eq_div_pow]
    exact Nat.div_eq_of_lt (lt_of_lt_of_le h (by norm_num))
  rw [h1, Nat.or_zero]
  apply Nat.mod_eq_of_lt
  rw [Nat.shiftLeft_eq]
  have h2 : pc * 2 ^ 32 < 2 ^ 32 * 2 ^ 32 := Nat.mul_lt_mul_of_pos_right h (by norm_num)
  calc pc * 2 ^ 32 < 2 ^ 32 * 2 ^ 32 := h2
    _ = 2 ^ 64 := by norm_num

/-- Erasing an index never lengthens a list. -/
theorem eraseIdx_length_le {α : Type} : ∀ (l : List α) (i : Nat),
    (l.eraseIdx i).length ≤ l.length
  | [], _ => by simp [List.eraseIdx]
  | _ :: t, 0 => by simp [List.eraseIdx]
  | _ :: t, i + 1 => by
    simp only [List.eraseIdx, List.length_cons]
    exact Nat.succ_le_succ (eraseIdx_length_le t i)

/-- Looking up a key just deleted from the additional results bag yields
nothing. -/
theorem lookupResult_deleteResult (key : String) :
    ∀ m : List (String × AdditionalResult), lookupResult key (deleteResult key m) = none
  | [] => rfl
  | (k, v) :: rest => by
    by_cases h : k = key
    · simp [deleteResult, h, lookupResult_deleteResult key rest]
    · simp [deleteResult, lookupResult, h, lookupResult_deleteResult key rest]

/-! ## C7: edge marker encode and decode round trip -/

/-- C7: for every source program counter pc < 2 ^ 32 and destination
dst < 2 ^ 32, the 64 bit marker rot_left_64(pc, 32) XOR dst carries pc in
its high 32 bits and dst in its low 32 bits, so the decoding performed by
getExecFlagsMapping (src := marker >> 32, dst := marker & 0xFFFFFFFF)
recovers exactly (pc, dst). -/
theorem c7_edge_marker_roundtrip (pc dst : Nat) (hpc : pc < 2 ^ 32) (hdst : dst < 2 ^ 32) :
    execFlagSrc (edgeMarker pc dst) = pc ∧ execFlagDst (edgeMarker pc dst) = dst := by
  have hm : edgeMarker pc dst = (pc <<< 32) ^^^ dst := by
    unfold edgeMarker
    rw [rotateLeft64_32_eq_shiftLeft hpc]
  constructor
  · unfold execFlagSrc
    rw [hm]
    apply Nat.eq_of_testBit_eq
    intro i
    have hd : dst.testBit (32 + i) = false :=
      Nat.testBit_lt_two_pow
        (lt_of_lt_of_le hdst (Nat.pow_le_pow_right (by norm_num) (by omega)))
    rw [Nat.testBit_shiftRight, Nat.testBit_xor, Nat.testBit_shiftLeft, hd]
    have h32 : 32 ≤ 32 + i := by omega
    simp [h32, Nat.add_sub_cancel_left]
  · unfold execFlagDst
    rw [hm]
    have hmask : (0xFFFFFFFF : Nat) = 2 ^ 32 - 1 := by norm_num
    rw [hmask, Nat.and_pow_two_sub_one_eq_mod]
    apply Nat.eq_of_testBit_eq
    intro i
    rw [Nat.testBit_mod_two_pow, Nat.testBit_xor, Nat.testBit_shiftLeft]
    by_cases hi : i < 32
    · have hni : ¬ 32 ≤ i := by omega
      simp [hi, hni]
    · have hd : dst.testBit i = false :=
        Nat.testBit_lt_two_pow
          (lt_of_lt_of_le hdst (Nat.pow_le_pow_right (by norm_num) (by omega)))
      simp [hi, hd]

/-- C7 witness: the round trip at pc = 10, dst = 100. -/
theorem c7_edge_marker_roundtrip_witness :
    execFlagSrc (edgeMarker 10 100) = 10 ∧ execFlagDst (edgeMarker 10 100) = 100 :=
  c7_edge_marker_roundtrip 10 100 (by norm_num) (by norm_num)

/-! ## C1: JUMPI edge destination (code bug) -/

/-- C1: evaluation of the traced JUMPI destination at a concrete step.
The claim states that a taken branch (condition non zero) records the top
of stack jump target and a not taken branch (condition zero) records
pc + 1. The code does the opposite: at pc = 10 with jump target 100 on top
of the stack, a non zero condition records destination 11 = pc + 1 and a
zero condition records the jump target 100. -/
theorem c1_capture_state_jumpi_inverted :
    captureStateMarkerDest OpCode.jumpi 10 100 1 = some 11 ∧
    captureStateMarkerDest OpCode.jumpi 10 100 0 = some 100 ∧
    (11 : Nat) ≠ 100 := by
  refine ⟨?_, by decide, by decide⟩
  show (if (1 : Nat) ≠ 0 then some ((10 + 1) % 2 ^ 256) else some 100) = some 11
  norm_num

/-! ## C6: delay invariant of fresh element synthesis -/

/-- C6: every delay pair produced by generateNewElement satisfies the
invariant: the block number delay never exceeds the block timestamp delay,
and when the timestamp delay is zero so is the number delay. -/
theorem c6_delay_invariant (rn rt mn mt bnd btd : Nat)
    (h : generateDelays rn rt mn mt = some (bnd, btd)) :
    bnd ≤ btd ∧ (btd = 0 → bnd = 0) := by
  unfold generateDelays at h
  cases h1 : sampleDelay rn mn with
  | none => rw [h1] at h; exact absurd h (by simp)
  | some bnd0 =>
    cases h2 : sampleDelay rt mt with
    | none => rw [h1, h2] at h; exact absurd h (by simp)
    | some btd0 =>
      rw [h1, h2] at h
      simp only [] at h
      by_cases hgt : bnd0 > btd0
      · rw [if_pos hgt] at h
        by_cases hz : btd0 = 0
        · rw [if_pos hz] at h
          have hb : bnd = 0 ∧ btd = btd0 := by
            constructor <;> · injection h with h3; injection h3 <;> omega
          omega
        · rw [if_neg hz] at h
          have hb : bnd = bnd0 % btd0 ∧ btd = btd0 := by
            constructor <;> · injection h with h3; injection h3 <;> omega
          have hlt : bnd0 % btd0 < btd0 := Nat.mod_lt _ (by omega)
          omega
      · rw [if_neg hgt] at h
        have hb : bnd = bnd0 ∧ btd = btd0 := by
          constructor <;> · injection h with h3; injection h3 <;> omega
        omega

/-- C6 witness: raw draws 9 and 2 with maxima 10 and 5 give the pair (1, 2)
(9 mod 11 = 9 exceeds 2 mod 6 = 2, so it is reduced to 9 mod 2 = 1), which
satisfies the invariant. -/
theorem c6_delay_invariant_witness :
    (1 : Nat) ≤ 2 ∧ ((2 : Nat) = 0 → (1 : Nat) = 0) :=
  c6_delay_invariant 9 2 10 5 1 2 (by decide)

/-! ## C10: coverage results round trip through the additional results bag -/

/-- C10: after the tracer stores its coverage maps at transaction end,
looking up coverage tracer results on those message results returns exactly
the stored CoverageMaps object; for message results with no stored coverage,
with the results removed, or with a value of a different type stored under
the key, the lookup returns nil. -/
theorem c10_coverage_results_roundtrip (cm : CoverageMaps) (r rMissing rOther : MessageResults)
    (tag : Nat)
    (hMissing : lookupResult coverageTracerResultsKey rMissing.additionalResults = none)
    (hOther : lookupResult coverageTracerResultsKey rOther.additionalResults =
      some (.otherValue tag)) :
    getCoverageTracerResults (captureTxEndSetAdditionalResults cm r) = some cm ∧
    getCoverageTracerResults (removeCoverageTracerResults r) = none ∧
    getCoverageTracerResults rMissing = none ∧
    getCoverageTracerResults rOther = none := by
  refine ⟨?_, ?_, ?_, ?_⟩
  · simp [getCoverageTracerResults, captureTxEndSetAdditionalResults, setResult, lookupResult]
  · simp [getCoverageTracerResults, removeCoverageTracerResults, lookupResult_deleteResult]
  · simp [getCoverageTracerResults, hMissing]
  · simp [getCoverageTracerResults, hOther]

/-- C10 witness: a concrete round trip. The stored maps object is recovered
exactly; a bag without the key, the bag after removal, and a bag holding a
value of another type under the key all yield nil. -/
theorem c10_coverage_results_roundtrip_witness :
    getCoverageTracerResults
      (captureTxEndSetAdditionalResults (CoverageMaps.mk [((1, true), [(5, 2)])])
        (MessageResults.mk [])) = some (CoverageMaps.mk [((1, true), [(5, 2)])]) ∧
    getCoverageTracerResults
      (removeCoverageTracerResults (MessageResults.mk [])) = none ∧
    getCoverageTracerResults (MessageResults.mk [("unrelated", .otherValue 0)]) = none ∧
    getCoverageTracerResults
      (MessageResults.mk [("CoverageTracerResults", .otherValue 3)]) = none :=
  c10_coverage_results_roundtrip (CoverageMaps.mk [((1, true), [(5, 2)])])
    (MessageResults.mk []) (MessageResults.mk [("unrelated", .otherValue 0)])
    (MessageResults.mk [("CoverageTracerResults", .otherValue 3)]) 3
    (by decide) (by decide)

/-! ## C2: chain revert after testNextCallSequence -/

/-- C2 counterexample: on an error exit path the deferred function skips
the revert. Starting at the testing base block 5, an execution that mines
two blocks and then returns an error leaves the chain head at 7, not at the
testing base block, refuting the claim that the revert is executed on all
exit paths. -/
theorem c2_error_path_skips_revert :
    (testNextCallSequence (TestChain.mk 5) 5 false (.execError 2)).1.headBlockNumber = 7 ∧
    (7 : Nat) ≠ 5 := by decide

/-- C2 amended: on every exit path of testNextCallSequence on which no
error is returned (including the context cancelled path), the chain is
reverted, so the head block number equals the testing base block number;
on error exits the revert is skipped. -/
theorem c2_revert_on_error_free_exit (c : TestChain) (base : Nat) (initErr : Bool)
    (exec : ExecIterOutcome) (h : (testNextCallSequence c base initErr exec).2 = false) :
    (testNextCallSequence c base initErr exec).1.headBlockNumber = base := by
  cases initErr with
  | false => cases exec <;> simp [testNextCallSequence, revertToBlockNumber] at h ⊢
  | true => simp [testNextCallSequence] at h

/-- C2 witness: an error free execution mining three blocks from base 5 is
reverted to head 5. -/
theorem c2_revert_on_error_free_exit_witness :
    (testNextCallSequence (TestChain.mk 5) 5 false (.success 3)).1.headBlockNumber = 5 :=
  c2_revert_on_error_free_exit (TestChain.mk 5) 5 false (.success 3) (by decide)

/-! ## C3: worker reset limit -/

/-- When every iteration completes, the run loop counts up through its
fuel. -/
theorem runLoop_all_tested (outcomes : Nat → WorkerIterOutcome)
    (hall : ∀ i, outcomes i = .tested) :
    ∀ fuel sequencesTested,
      runLoop outcomes fuel sequencesTested = (.finishedNormally, sequencesTested + fuel)
  | 0, sequencesTested => by simp [runLoop]
  | fuel + 1, sequencesTested => by
    rw [runLoop, hall sequencesTested]
    rw [runLoop_all_tested outcomes hall fuel (sequencesTested + 1)]
    simp only [Prod.mk.injEq]
    exact ⟨trivial, by omega⟩

/-- C3 counterexample: with worker_reset_limit = 3 and no cancellation, the
loop condition sequencesTested <= WorkerResetLimit admits the counter
values 0, 1, 2 and 3, so the worker executes 4 sequences before returning
normally, not exactly 3 as the claim states. -/
theorem c3_executes_limit_plus_one :
    runFuzzingLoop 3 (fun _ => .tested) = (.finishedNormally, 4) ∧ (4 : Nat) ≠ 3 := by
  constructor
  · rfl
  · decide

/-- C3 amended: for every worker epoch in which no iteration is cancelled
or errors, the run loop returns normally after executing exactly
worker_reset_limit + 1 call sequences. -/
theorem c3_run_executes_limit_succ (workerResetLimit : Nat)
    (outcomes : Nat → WorkerIterOutcome) (hall : ∀ i, outcomes i = .tested) :
    runFuzzingLoop workerResetLimit outcomes = (.finishedNormally, workerResetLimit + 1) := by
  unfold runFuzzingLoop
  rw [runLoop_all_tested outcomes hall (workerResetLimit + 1) 0]
  simp only [Prod.mk.injEq]
  exact ⟨trivial, by omega⟩

/-- C3 witness: with worker_reset_limit = 5 the loop returns normally after
6 sequences. -/
theorem c3_run_executes_limit_succ_witness :
    runFuzzingLoop 5 (fun _ => .tested) = (.finishedNormally, 6) :=
  c3_run_executes_limit_succ 5 (fun _ => .tested) (fun _ => rfl)

/-! ## C4: the remove reverting transactions phase -/

/-- Once the index reaches the sequence length, the remove reverts loop
returns its accumulator and the remaining budget unchanged. -/
theorem removeRevertsLoop_stop (seq : List CallSequenceElement) (fuel i limit : Nat)
    (w : List CallSequenceElement) (h : seq.length ≤ i) :
    removeRevertsLoop seq fuel i limit w = (w, limit) := by
  cases fuel with
  | zero => rfl
  | succ n =>
    have hc : ¬ (i < seq.length ∧ 0 < limit) := by omega
    simp [removeRevertsLoop, hc]

/-- With enough budget, the remove reverts loop visits every remaining
index, spends one unit of budget per index, and its final accumulator is
the clone produced in the last iteration: the full sequence with its last
element erased exactly when that element has a failed receipt. Earlier
deletions are discarded because every iteration re-clones the unmodified
sequence. -/
theorem removeRevertsLoop_run (seq : List CallSequenceElement) :
    ∀ (fuel i limit : Nat) (w : List CallSequenceElement),
      i < seq.length → seq.length ≤ i + fuel → seq.length - i ≤ limit →
      removeRevertsLoop seq fuel i limit w =
        ((if (seq.getD (seq.length - 1) default).statusFailed then
            seq.eraseIdx (seq.length - 1)
          else seq), limit - (seq.length - i))
  | 0, i, limit, w => by intro h1 h2 h3; omega
  | fuel + 1, i, limit, w => by
    intro h1 h2 h3
    have hc : i < seq.length ∧ 0 < limit := ⟨h1, by omega⟩
    rw [removeRevertsLoop, if_pos hc]
    by_cases hmore : i + 1 < seq.length
    · rw [removeRevertsLoop_run seq fuel (i + 1) (limit - 1) _ hmore (by omega) (by omega)]
      simp only [Prod.mk.injEq]
      exact ⟨trivial, by omega⟩
    · have hi : i = seq.length - 1 := by omega
      rw [removeRevertsLoop_stop seq fuel (i + 1) (limit - 1) _ (by omega)]
      rw [hi]
      simp only [Prod.mk.injEq]
      exact ⟨trivial, by omega⟩

/-- C4 counterexample: a sequence of two elements that both have failed
receipts, shrunk with ample budget and (implicitly) a verifier that always
holds. The claim predicts that both deletions accumulate, each checked by
its own verifier test, leaving the empty candidate; the code instead
returns the candidate that still contains the first failed element, because
every iteration re-clones the unmodified sequence and only one verifier
test runs after the loop. -/
theorem c4_deletions_do_not_accumulate :
    (removeRevertsPhase
      [CallSequenceElement.mk [0] true, CallSequenceElement.mk [1] true] 10).1 =
      [CallSequenceElement.mk [0] true] ∧
    (removeRevertsPhase
      [CallSequenceElement.mk [0] true, CallSequenceElement.mk [1] true] 10).1 ≠ [] ∧
    (CallSequenceElement.mk [0] true).statusFailed = true := by decide

/-- C4 amended: the first shrinking phase iterates once through the
sequence, consuming one shrink iteration per element whether or not its
receipt failed; because the working copy is re-cloned from the unmodified
sequence at every step, earlier deletions are discarded, and the single
candidate left for the one verifier test that follows the loop is the
sequence with only its last element removed when that element has a failed
receipt (the unmodified sequence otherwise). -/
theorem c4_phase_one_behavior (seq : List CallSequenceElement) (limit : Nat)
    (h1 : seq ≠ []) (h2 : seq.length ≤ limit) :
    removeRevertsPhase seq limit =
      ((if (seq.getD (seq.length - 1) default).statusFailed then
          seq.eraseIdx (seq.length - 1)
        else seq), limit - seq.length) := by
  unfold removeRevertsPhase
  have hlen : 0 < seq.length := List.length_pos.mpr h1
  rw [removeRevertsLoop_run seq seq.length 0 limit [] hlen (by omega) (by omega)]
  simp only [Prod.mk.injEq]
  exact ⟨trivial, by omega⟩

/-- C4 witness: the amended behavior at a concrete sequence whose last
element did not fail while an earlier one did: the phase returns the
sequence unchanged, having spent two units of budget. -/
theorem c4_phase_one_behavior_witness :
    removeRevertsPhase [CallSequenceElement.mk [0] true, CallSequenceElement.mk [1] false] 7 =
      ((if ((
        [CallSequenceElement.mk [0] true, CallSequenceElement.mk [1] false] :
          List CallSequenceElement).getD 1 default).statusFailed then
          ([CallSequenceElement.mk [0] true,
            CallSequenceElement.mk [1] false] : List CallSequenceElement).eraseIdx 1
        else [CallSequenceElement.mk [0] true, CallSequenceElement.mk [1] false]), 5) :=
  c4_phase_one_behavior
    [CallSequenceElement.mk [0] true, CallSequenceElement.mk [1] false] 7
    (by decide) (by decide)

/-! ## C5: soundness of the shrinker result -/

/-- shrinkParam preserves the sequence length. -/
theorem shrinkParam_length (mutate : Nat → Nat) (draw : Nat)
    (seq : List CallSequenceElement) : (shrinkParam mutate draw seq).length = seq.length := by
  simp [shrinkParam]

/-- A phase two candidate is never longer than the sequence it was derived
from. -/
theorem shrinkCandidate_length_le (o : ShrinkOracles) (round : Nat)
    (opt : List CallSequenceElement) : (shrinkCandidate o round opt).length ≤ opt.length := by
  unfold shrinkCandidate
  split
  · exact le_of_eq (shrinkParam_length _ _ _)
  · exact eraseIdx_length_le _ _

/-- testShrunkenCallSequence reports success exactly for a non empty
candidate accepted by the verifier. -/
theorem testShrunken_eq_true (verifier : List CallSequenceElement → Bool)
    (w : List CallSequenceElement) :
    testShrunkenCallSequence verifier w = true ↔ 0 < w.length ∧ verifier w = true := by
  unfold testShrunkenCallSequence
  split
  · simp_all
  · simp_all

/-- The remove reverts loop accumulator never exceeds the sequence length
when it starts below it. -/
theorem removeRevertsLoop_length_le (seq : List CallSequenceElement) :
    ∀ (fuel i limit : Nat) (w : List CallSequenceElement),
      w.length ≤ seq.length →
      (removeRevertsLoop seq fuel i limit w).1.length ≤ seq.length
  | 0, i, limit, w => by intro h; exact h
  | fuel + 1, i, limit, w => by
    intro h
    rw [removeRevertsLoop]
    split
    · apply removeRevertsLoop_length_le seq fuel (i + 1) (limit - 1)
      split
      · exact eraseIdx_length_le _ _
      · exact le_refl _
    · exact h

/-- The candidate of the remove reverts phase never exceeds the original
sequence length. -/
theorem removeRevertsPhase_length_le (seq : List CallSequenceElement) (limit : Nat) :
    (removeRevertsPhase seq limit).1.length ≤ seq.length :=
  removeRevertsLoop_length_le seq seq.length 0 limit [] (by simp)

/-- Invariant of the alternating mutation loop: starting from a non empty
sequence accepted by the verifier and no longer than n, the loop returns a
non empty sequence accepted by the verifier and no longer than n, because a
candidate is promoted only when the verifier accepts it and an empty
candidate is never accepted. -/
theorem shrinkLoop_inv (o : ShrinkOracles) (n : Nat) :
    ∀ (limit iter round : Nat) (opt : List CallSequenceElement),
      opt.length ≤ n → o.verifier opt = true → opt ≠ [] →
      (shrinkLoop o limit iter round opt).length ≤ n ∧
      o.verifier (shrinkLoop o limit iter round opt) = true ∧
      shrinkLoop o limit iter round opt ≠ []
  | 0, iter, round, opt => by
    intro h1 h2 h3
    exact ⟨h1, h2, h3⟩
  | limit + 1, iter, round, opt => by
    intro h1 h2 h3
    rw [shrinkLoop]
    split
    · exact ⟨h1, h2, h3⟩
    · cases hval : testShrunkenCallSequence o.verifier (shrinkCandidate o round opt) with
      | false =>
        simp only [hval, Bool.false_eq_true, if_false]
        exact shrinkLoop_inv o n limit (iter + 1) (round + 1) opt h1 h2 h3
      | true =>
        have hc := (testShrunken_eq_true _ _).mp hval
        simp only [hval, if_true]
        exact shrinkLoop_inv o n limit (iter + 1) (round + 1) _
          (le_trans (shrinkCandidate_length_le o round opt) h1) hc.2
          (List.length_pos.mp hc.1)

/-- C5: for every shrink request on an original failing sequence accepted
by the verifier, the sequence returned by shrinkCallSequence is no longer
than the original, is still accepted by the verifier, is never empty when
the original is non empty, and a length one sequence keeps length one (its
argument values may shrink but no element is removed). -/
theorem c5_shrinker_sound (o : ShrinkOracles) (s : List CallSequenceElement)
    (shrinkLimit : Nat) (hv : o.verifier s = true) (hne : s ≠ []) :
    (shrinkCallSequence o s shrinkLimit).length ≤ s.length ∧
    o.verifier (shrinkCallSequence o s shrinkLimit) = true ∧
    shrinkCallSequence o s shrinkLimit ≠ [] ∧
    (s.length = 1 → (shrinkCallSequence o s shrinkLimit).length = 1) := by
  have main : (shrinkCallSequence o s shrinkLimit).length ≤ s.length ∧
      o.verifier (shrinkCallSequence o s shrinkLimit) = true ∧
      shrinkCallSequence o s shrinkLimit ≠ [] := by
    unfold shrinkCallSequence
    by_cases hpos : 0 < shrinkLimit
    · rw [if_pos hpos]
      cases hval : testShrunkenCallSequence o.verifier (removeRevertsPhase s shrinkLimit).1 with
      | false =>
        simp only [hval, Bool.false_eq_true, if_false]
        exact shrinkLoop_inv o s.length _ 0 0 s (le_refl _) hv hne
      | true =>
        have hc := (testShrunken_eq_true _ _).mp hval
        simp only [hval, if_true]
        exact shrinkLoop_inv o s.length _ 0 0 _
          (removeRevertsPhase_length_le s shrinkLimit) hc.2 (List.length_pos.mp hc.1)
    · rw [if_neg hpos]
      exact ⟨le_refl _, hv, hne⟩
  refine ⟨main.1, main.2.1, main.2.2, fun hone => ?_⟩
  have hp : 0 < (shrinkCallSequence o s shrinkLimit).length :=
    List.length_pos.mpr main.2.2
  have hle := main.1
  omega

/-- C5 witness: a concrete shrink run with an always accepting verifier on
a two element sequence with budget four satisfies all four conclusions. -/
theorem c5_shrinker_sound_witness :
    (shrinkCallSequence
      (ShrinkOracles.mk (fun _ => true) (fun _ => 1) (fun _ => 0) (fun v => v))
      [CallSequenceElement.mk [7] true, CallSequenceElement.mk [2] false] 4).length ≤ 2 ∧
    (ShrinkOracles.mk (fun _ => true) (fun _ => 1) (fun _ => 0) (fun v => v)).verifier
      (shrinkCallSequence
        (ShrinkOracles.mk (fun _ => true) (fun _ => 1) (fun _ => 0) (fun v => v))
        [CallSequenceElement.mk [7] true, CallSequenceElement.mk [2] false] 4) = true ∧
    shrinkCallSequence
      (ShrinkOracles.mk (fun _ => true) (fun _ => 1) (fun _ => 0) (fun v => v))
      [CallSequenceElement.mk [7] true, CallSequenceElement.mk [2] false] 4 ≠ [] ∧
    (([CallSequenceElement.mk [7] true,
        CallSequenceElement.mk [2] false] : List CallSequenceElement).length = 1 →
      (shrinkCallSequence
        (ShrinkOracles.mk (fun _ => true) (fun _ => 1) (fun _ => 0) (fun v => v))
        [CallSequenceElement.mk [7] true, CallSequenceElement.mk [2] false] 4).length = 1) :=
  c5_shrinker_sound
    (ShrinkOracles.mk (fun _ => true) (fun _ => 1) (fun _ => 0) (fun v => v))
    [CallSequenceElement.mk [7] true, CallSequenceElement.mk [2] false] 4
    rfl (by decide)

/-! ## C8: the interleave at random strategy -/

/-- C8 counterexample: prefixes of lengths 3 and 1 interleaved into a
destination of length 5 (draws r1 = 2, r2 = 1 give exactly those prefix
lengths). The claim states positions 0, 2, 3 and 4 come from the first
sequence with no null slots; in fact only three elements of the first
prefix exist, so position 4 remains a null slot, to be filled fresh
later. -/
theorem c8_slot_four_is_null :
    (callSeqGenFuncInterleaveAtRandom 5
      [CallSequenceElement.mk [0] false, CallSequenceElement.mk [1] false,
        CallSequenceElement.mk [2] false]
      [CallSequenceElement.mk [10] false] 2 1).getD 4 (some default) = none ∧
    (callSeqGenFuncInterleaveAtRandom 5
      [CallSequenceElement.mk [0] false, CallSequenceElement.mk [1] false,
        CallSequenceElement.mk [2] false]
      [CallSequenceElement.mk [10] false] 2 1).length = 5 := by decide

/-- C8 amended: with prefix lengths 3 and 1 into a destination of length 5,
the interleaving places the first prefix at positions 0, 2 and 3, the
second prefix at position 1, and leaves position 4 as a null slot to be
filled fresh by later element fetches. -/
theorem c8_interleave_three_one_into_five (a0 a1 a2 b0 : CallSequenceElement) :
    callSeqGenFuncInterleaveAtRandom 5 [a0, a1, a2] [b0] 2 1 =
      [some a0, some b0, some a1, some a2, none] := by
  rfl

/-! ## C9: expansion strategy and the sequence length cap -/

/-- A growing append (the new view is strictly longer than the old one)
never writes through to the caller backing array when the no-spare-capacity
invariant holds, keeps that invariant, and its view is the new view. While
the local slice is still aliased its capacity equals its length, so a
growing append always exceeds capacity and detaches; once detached, both
branches leave the caller backing array untouched. -/
theorem goAppendSlice_grow {α : Type} (s : GoSliceState α) (newView : List α)
    (hinv : s.aliased = true → s.cap ≤ s.view.length)
    (hgrow : s.view.length < newView.length) :
    (goAppendSlice s newView).origBacking = s.origBacking ∧
    (goAppendSlice s newView).view = newView ∧
    ((goAppendSlice s newView).aliased = true →
      (goAppendSlice s newView).cap ≤ (goAppendSlice s newView).view.length) := by
  unfold goAppendSlice
  by_cases hfit : newView.length ≤ s.cap
  · cases hal : s.aliased with
    | false =>
      rw [if_pos hfit]
      refine ⟨?_, rfl, ?_⟩
      · simp [hal]
      · intro h; simp [hal] at h
    | true =>
      exfalso
      have := hinv hal
      omega
  · rw [if_neg hfit]
    exact ⟨rfl, rfl, by intro h; simp at h⟩

/-- The inserted view of one expansion round is one element longer than the
current view, whether the duplicated element is inserted in range or
appended at the end. -/
theorem expansionRound_view_length {α : Type} (s : GoSliceState α) (dup : α) (idx : Nat) :
    (if idx < s.view.length then
      s.view.take idx ++ dup :: s.view.drop idx
    else s.view ++ [dup]).length = s.view.length + 1 := by
  split
  · simp only [List.length_append, List.length_cons, List.length_take, List.length_drop]
    omega
  · simp

/-- Across all expansion rounds, the caller backing array is never written
(the first append already exceeds capacity and detaches the local slice)
while the local view grows by exactly one element per round. -/
theorem callSeqGenFuncExpansionLoop_spec {α : Type} (dup : α) :
    ∀ (remaining i randIndex : Nat) (s : GoSliceState α),
      (s.aliased = true → s.cap ≤ s.view.length) →
      (callSeqGenFuncExpansionLoop dup remaining i randIndex s).origBacking = s.origBacking ∧
      (callSeqGenFuncExpansionLoop dup remaining i randIndex s).view.length =
        s.view.length + remaining
  | 0, i, randIndex, s => by
    intro hinv
    exact ⟨rfl, rfl⟩
  | remaining + 1, i, randIndex, s => by
    intro hinv
    rw [callSeqGenFuncExpansionLoop]
    have hlen := expansionRound_view_length s dup (randIndex + i)
    have happ := goAppendSlice_grow s
      (if randIndex + i < s.view.length then
        s.view.take (randIndex + i) ++ dup :: s.view.drop (randIndex + i)
      else s.view ++ [dup]) hinv (by rw [hlen]; omega)
    have hrec := callSeqGenFuncExpansionLoop_spec dup remaining (i + 1) (randIndex + i)
      _ happ.2.2
    refine ⟨?_, ?_⟩
    · rw [hrec.1, happ.1]
    · rw [hrec.2, happ.2.1, hlen]
      omega

/-- C9: the expansion strategy replicates the chosen element at most 30
times (rounds = Intn(31)) into its local working slice, and the base
sequence observed by subsequent element fetches is completely unchanged:
the caller backing array still holds the original sequence of configured
length call_sequence_length, so there is no out of bounds growth, and a
fetch at any cursor at or beyond that length returns nil. -/
theorem c9_expansion_no_out_of_bounds_growth (sequence : List (Option CallSequenceElement))
    (rr r k : Nat) (fresh : CallSequenceElement)
    (prefetchModifyCallFunc : Option (CallSequenceElement → CallSequenceElement))
    (fillFromTestChainProperties : CallSequenceElement → CallSequenceElement)
    (hne : sequence ≠ []) (hk : sequence.length ≤ k) :
    (callSeqGenFuncExpansion sequence rr r).origBacking = sequence ∧
    (callSeqGenFuncExpansion sequence rr r).view.length = sequence.length + rr % 31 ∧
    (callSeqGenFuncExpansion sequence rr r).view.length ≤ sequence.length + 30 ∧
    (popSequenceElement fresh prefetchModifyCallFunc fillFromTestChainProperties
      (CallSequenceGenerator.mk (callSeqGenFuncExpansion sequence rr r).origBacking k)).1 =
      none := by
  have hspec := callSeqGenFuncExpansionLoop_spec
    (sequence.getD (r % sequence.length) none) (rr % 31) 0 (r % sequence.length)
    (GoSliceState.mk sequence sequence sequence.length true)
    (fun _ => le_refl _)
  unfold callSeqGenFuncExpansion
  have hb : (callSeqGenFuncExpansionLoop (sequence.getD (r % sequence.length) none)
      (rr % 31) 0 (r % sequence.length)
      (GoSliceState.mk sequence sequence sequence.length true)).origBacking = sequence :=
    hspec.1
  have hv : (callSeqGenFuncExpansionLoop (sequence.getD (r % sequence.length) none)
      (rr % 31) 0 (r % sequence.length)
      (GoSliceState.mk sequence sequence sequence.length true)).view.length =
      sequence.length + rr % 31 :=
    hspec.2
  have hmod : rr % 31 < 31 := Nat.mod_lt _ (by omega)
  refine ⟨hb, hv, by rw [hv]; omega, ?_⟩
  rw [popSequenceElement]
  rw [if_pos (by rw [hb]; exact hk)]

/-- C9 witness: a base sequence of length 2 (one hole), four expansion
rounds: the caller base sequence is unchanged, the local view grew to
length 6 (at most 2 + 30), and a fetch at cursor 2 returns nil. -/
theorem c9_expansion_no_out_of_bounds_growth_witness :
    (callSeqGenFuncExpansion [some (CallSequenceElement.mk [1] false), none] 35 1).origBacking =
      [some (CallSequenceElement.mk [1] false), none] ∧
    (callSeqGenFuncExpansion [some (CallSequenceElement.mk [1] false), none] 35 1).view.length =
      ([some (CallSequenceElement.mk [1] false), none] :
        List (Option CallSequenceElement)).length + 35 % 31 ∧
    (callSeqGenFuncExpansion [some (CallSequenceElement.mk [1] false), none] 35 1).view.length ≤
      ([some (CallSequenceElement.mk [1] false), none] :
        List (Option CallSequenceElement)).length + 30 ∧
    (popSequenceElement (CallSequenceElement.mk [9] false) none (fun e => e)
      (CallSequenceGenerator.mk
        (callSeqGenFuncExpansion
          [some (CallSequenceElement.mk [1] false), none] 35 1).origBacking 2)).1 = none :=
  c9_expansion_no_out_of_bounds_growth
    [some (CallSequenceElement.mk [1] false), none] 35 1 2
    (CallSequenceElement.mk [9] false) none (fun e => e) (by decide) (by decide)
